import Mathlib

/-!
Verification of the billing/bot logic of `driver_school_bot.py` against its
specification.  Pure fragments of the Python source (the JSONL append helper,
the offers schedule and its activity filter, the admin gate, and the free-trial
cooldown) are embedded as Lean functions; file contents become explicit list
states.  The billing core described by the specification (proration engine,
charge ledger, account registry, settlement manager, report builder) is not
present in the source tree, so those components are modelled directly from the
specification's words, as marked on each definition.
-/

namespace DriverSchoolBot

/-! ### The JSONL append helper `save_jsonl` (source lines 77-91) -/

/-- One stored JSONL line: `save_jsonl` writes the record as the payload together
with the auto-assigned ticket id. -/
structure JsonlEntry (α : Type) where
  id : Nat
  payload : α
deriving DecidableEq

/-- Embeds `save_jsonl`: the ticket id is the number of lines currently in the
file plus one (the Python code counts lines with `enumerate`, then does
`tid = (tid or 0) + 1`), and the record is appended as one new line. -/
def save_jsonl {α : Type} (store : List (JsonlEntry α)) (obj : α) :
    Nat × List (JsonlEntry α) :=
  let tid := store.length + 1
  (tid, store ++ [⟨tid, obj⟩])

/-- Runs a sequence of `save_jsonl` appends against an initial store, returning
the ids handed out in order together with the final store. -/
def runAppends {α : Type} (store : List (JsonlEntry α)) :
    List α → List Nat × List (JsonlEntry α)
  | [] => ([], store)
  | o :: os =>
    let r := save_jsonl store o
    let rest := runAppends r.2 os
    (r.1 :: rest.1, rest.2)

theorem save_jsonl_length {α : Type} (store : List (JsonlEntry α)) (obj : α) :
    (save_jsonl store obj).2.length = store.length + 1 := by
  simp [save_jsonl]

theorem runAppends_ids {α : Type} (objs : List α) :
    ∀ store : List (JsonlEntry α),
      (runAppends store objs).1 = List.range' (store.length + 1) objs.length := by
  induction objs with
  | nil => intro store; simp [runAppends]
  | cons o os ih =>
    intro store
    simp only [runAppends, ih, save_jsonl_length, List.length_cons]
    rw [List.range'_succ]
    simp [save_jsonl]

/-- Claim C7: record ids assigned by the ledger append are monotonically
increasing and never reused — in any sequence of `save_jsonl` appends to the
same store, each append returns an id strictly greater than every id returned
by an earlier append to that store. -/
theorem save_jsonl_ids_strictly_increasing {α : Type}
    (store : List (JsonlEntry α)) (objs : List α) :
    ((runAppends store objs).1).Pairwise (· < ·) := by
  rw [runAppends_ids]
  exact List.pairwise_lt_range' _ _

/-! ### Offers and `active_offers` (source lines 160-263) -/

/-- One offer record as consumed by `active_offers`: start/end instants as the
stored strings, plus the integer priority.  The UTC instants denoted by the
stored strings are recovered by a parse function passed explicitly below,
standing for `_parse_iso` (whose `None` result stands for a string on which
the Python call raises and the offer is skipped). -/
structure Offer where
  oid : String
  start_at : String
  end_at : String
  priority : Int
deriving DecidableEq

/-- Boolean comparison realizing the Python sort key
`(-int(priority), start_at)` of `active_offers`: ascending on that key means
descending priority, with ties broken by ascending `start_at` string. -/
def offerLE (a b : Offer) : Bool :=
  decide (b.priority < a.priority) ||
    (decide (a.priority = b.priority) && decide (a.start_at ≤ b.start_at))

/-- Embeds `active_offers` (source lines 239-250): keep the offers whose two
timestamps parse and bracket `now`, skipping (never raising on) the rest, then
sort by descending priority with ties broken by ascending `start_at`. -/
def active_offers (parse : String → Option Int) (offers : List Offer)
    (now : Int) : List Offer :=
  (offers.filter fun o =>
    match parse o.start_at, parse o.end_at with
    | some s, some e => decide (s ≤ now) && decide (now ≤ e)
    | _, _ => false).mergeSort offerLE

/-- Embeds `upcoming_offers` (source lines 252-263): offers whose start parses
and lies strictly after `now`, sorted by ascending `start_at`. -/
def upcoming_offers (parse : String → Option Int) (offers : List Offer)
    (now : Int) : List Offer :=
  (offers.filter fun o =>
    match parse o.start_at with
    | some s => decide (now < s)
    | none => false).mergeSort fun a b => decide (a.start_at ≤ b.start_at)

/-- Embeds `build_embedded_offers` (source lines 161-237): the three scheduled
offers with their Dubai-local ranges already converted to UTC `Z` strings by
`dubai_range_to_utc_iso` (Dubai is UTC+4). -/
def build_embedded_offers : List Offer :=
  [⟨"current_offer_nov2025", "2025-11-06T20:00:00Z", "2025-11-20T19:59:59Z", 150⟩,
   ⟨"uae_national_day_2025", "2025-11-30T20:00:00Z", "2025-12-07T19:59:59Z", 200⟩,
   ⟨"xmas_newyear_2025_2026", "2025-12-23T20:00:00Z", "2026-01-05T19:59:59Z", 100⟩]

theorem offerLE_trans (a b c : Offer) :
    offerLE a b = true → offerLE b c = true → offerLE a c = true := by
  simp only [offerLE, Bool.or_eq_true, Bool.and_eq_true, decide_eq_true_eq]
  rintro (h₁ | ⟨h₁, h₁'⟩) (h₂ | ⟨h₂, h₂'⟩)
  · exact Or.inl (h₂.trans h₁)
  · exact Or.inl (h₂ ▸ h₁)
  · exact Or.inl (lt_of_lt_of_eq h₂ h₁.symm)
  · exact Or.inr ⟨h₁.trans h₂, le_trans h₁' h₂'⟩

theorem offerLE_total (a b : Offer) :
    (offerLE a b || offerLE b a) = true := by
  simp only [offerLE, Bool.or_eq_true, Bool.and_eq_true, decide_eq_true_eq]
  rcases lt_trichotomy a.priority b.priority with h | h | h
  · exact Or.inr (Or.inl h)
  · rcases le_total a.start_at b.start_at with h' | h'
    · exact Or.inl (Or.inr ⟨h, h'⟩)
    · exact Or.inr (Or.inr ⟨h.symm, h'⟩)
  · exact Or.inl (Or.inl h)

/-- Claim C9: for every instant `now`, an offer appears in `active_offers` if
and only if its `start_at` and `end_at` parse and satisfy
`start_at ≤ now ≤ end_at` (offers whose timestamps fail to parse are silently
skipped), and the returned list is sorted by descending priority with ties
broken by ascending `start_at`. -/
theorem active_offers_spec (parse : String → Option Int) (offers : List Offer)
    (now : Int) :
    (∀ o : Offer, o ∈ active_offers parse offers now ↔
      o ∈ offers ∧ ∃ s e : Int, parse o.start_at = some s ∧
        parse o.end_at = some e ∧ s ≤ now ∧ now ≤ e) ∧
    (active_offers parse offers now).Pairwise fun a b =>
      b.priority < a.priority ∨
        (a.priority = b.priority ∧ a.start_at ≤ b.start_at) := by
  constructor
  · intro o
    rw [active_offers, List.mem_mergeSort, List.mem_filter]
    constructor
    · rintro ⟨ho, hp⟩
      refine ⟨ho, ?_⟩
      rcases hs : parse o.start_at with _ | s <;> rcases he : parse o.end_at with _ | e <;>
        simp only [hs, he, Bool.and_eq_true, decide_eq_true_eq] at hp
      · exact absurd hp (by simp)
      · exact absurd hp (by simp)
      · exact absurd hp (by simp)
      · exact ⟨s, e, rfl, rfl, hp.1, hp.2⟩
    · rintro ⟨ho, s, e, hs, he, h₁, h₂⟩
      refine ⟨ho, ?_⟩
      simp [hs, he, h₁, h₂]
  · have h := List.sorted_mergeSort offerLE_trans offerLE_total
      (offers.filter fun o =>
        match parse o.start_at, parse o.end_at with
        | some s, some e => decide (s ≤ now) && decide (now ≤ e)
        | _, _ => false)
    refine h.imp ?_
    intro a b hab
    simpa only [offerLE, Bool.or_eq_true, Bool.and_eq_true, decide_eq_true_eq]
      using hab

/-! ### Admin gating (source lines 640-644 and 783-824) -/

/-- Embeds `_is_admin`: true exactly when `ADMIN_CHAT_ID` is configured (not
`None`) and equals the caller's Telegram user id. -/
def is_admin (adminChatId : Option Int) (userId : Int) : Bool :=
  match adminChatId with
  | none => false
  | some a => decide (a = userId)

/-- The visible outcome of one admin command invocation. -/
inductive AdminReply
  | adminOnly
  | statusReport (mode : String) (activeCount : Nat)
  | offersList (offers : List Offer)
  | noOffer
  | reloaded
deriving DecidableEq

/-- The mutable state the admin commands can read or write: the loaded offers
schedule (`OFFERS_ALL`). -/
structure BotState where
  offersAll : List Offer
deriving DecidableEq

/-- Embeds `status_cmd` (source lines 783-790): refuse non-admins before
reading anything; otherwise report the run mode and the active-offer count. -/
def status_cmd (adminChatId : Option Int) (userId : Int)
    (parse : String → Option Int) (now : Int) (webhook : Bool)
    (st : BotState) : AdminReply × BotState :=
  if is_admin adminChatId userId then
    (.statusReport (if webhook then "webhook" else "polling")
      (active_offers parse st.offersAll now).length, st)
  else (.adminOnly, st)

/-- Embeds `offers_now_cmd` (source lines 792-803): refuse non-admins;
otherwise list the active offers, or answer `no offer` when none. -/
def offers_now_cmd (adminChatId : Option Int) (userId : Int)
    (parse : String → Option Int) (now : Int) (st : BotState) :
    AdminReply × BotState :=
  if is_admin adminChatId userId then
    let acts := active_offers parse st.offersAll now
    if acts.isEmpty then (.noOffer, st) else (.offersList acts, st)
  else (.adminOnly, st)

/-- Embeds `upcoming_offers_cmd` (source lines 805-816): refuse non-admins;
otherwise list the upcoming offers, or answer `no offer` when none. -/
def upcoming_offers_cmd (adminChatId : Option Int) (userId : Int)
    (parse : String → Option Int) (now : Int) (st : BotState) :
    AdminReply × BotState :=
  if is_admin adminChatId userId then
    let ups := upcoming_offers parse st.offersAll now
    if ups.isEmpty then (.noOffer, st) else (.offersList ups, st)
  else (.adminOnly, st)

/-- Embeds `offer_reload_cmd` (source lines 818-824): refuse non-admins;
otherwise overwrite `OFFERS_ALL` with the embedded schedule. -/
def offer_reload_cmd (adminChatId : Option Int) (userId : Int)
    (st : BotState) : AdminReply × BotState :=
  if is_admin adminChatId userId then (.reloaded, ⟨build_embedded_offers⟩)
  else (.adminOnly, st)

/-- Claim C10: each admin command performs its action if and only if
`ADMIN_CHAT_ID` is configured and equals the caller's user id; every other
caller receives only the `Admin only` refusal and the state is returned
untouched, nothing read into the reply. -/
theorem admin_commands_gated (adminChatId : Option Int) (userId : Int)
    (parse : String → Option Int) (now : Int) (webhook : Bool)
    (st : BotState) :
    ((status_cmd adminChatId userId parse now webhook st).1 ≠ .adminOnly ↔
        adminChatId = some userId) ∧
    ((offers_now_cmd adminChatId userId parse now st).1 ≠ .adminOnly ↔
        adminChatId = some userId) ∧
    ((upcoming_offers_cmd adminChatId userId parse now st).1 ≠ .adminOnly ↔
        adminChatId = some userId) ∧
    ((offer_reload_cmd adminChatId userId st).1 ≠ .adminOnly ↔
        adminChatId = some userId) ∧
    (adminChatId ≠ some userId →
      status_cmd adminChatId userId parse now webhook st = (.adminOnly, st) ∧
      offers_now_cmd adminChatId userId parse now st = (.adminOnly, st) ∧
      upcoming_offers_cmd adminChatId userId parse now st = (.adminOnly, st) ∧
      offer_reload_cmd adminChatId userId st = (.adminOnly, st)) := by
  have hiff : is_admin adminChatId userId = true ↔ adminChatId = some userId := by
    cases adminChatId with
    | none => simp [is_admin]
    | some a =>
      simp only [is_admin, decide_eq_true_eq, Option.some.injEq]
  by_cases h : is_admin adminChatId userId = true
  · have h' : adminChatId = some userId := hiff.mp h
    refine ⟨?_, ?_, ?_, ?_, fun hc => absurd h' hc⟩ <;>
      simp only [status_cmd, offers_now_cmd, upcoming_offers_cmd,
        offer_reload_cmd, h, if_true] <;>
      constructor <;> intro _ <;> first
        | exact h'
        | (split <;> simp)
        | simp
  · have h' : ¬ adminChatId = some userId := fun hc => h (hiff.mpr hc)
    refine ⟨?_, ?_, ?_, ?_, fun _ => ?_⟩ <;>
      simp [status_cmd, offers_now_cmd, upcoming_offers_cmd,
        offer_reload_cmd, h, h']

/-- Concrete instance of claim C10's refusal branch: an unconfigured admin id
refuses the caller and leaves the offers state unchanged. -/
theorem admin_commands_gated_witness :
    (none : Option Int) ≠ some 42 ∧
      offer_reload_cmd none 42 ⟨[]⟩ = (.adminOnly, ⟨[]⟩) :=
  ⟨by simp,
    ((admin_commands_gated none 42 (fun _ => none) 0 false ⟨[]⟩).2.2.2.2
      (by simp)).2.2.2⟩

/-! ### Free-trial cooldown (source lines 681-719) -/

/-- One record of the trials store, as read back by `iter_jsonl`: the phone,
the package, and the parse result of the stored `created_at` string —
`none` models a string on which `datetime.fromisoformat` raises, in which
case the code substitutes the current instant. -/
structure TrialRec where
  phone : String
  package : String
  created_at : Option Int
deriving DecidableEq

/-- The cooldown span `timedelta(days=30)`, in seconds. -/
def trialCooldown : Int := 30 * 86400

/-- The instant the code attributes to a stored trial record: its parsed
`created_at`, or `now` when parsing raises (`when = _now_uae()`). -/
def trialWhen (now : Int) (r : TrialRec) : Int := r.created_at.getD now

/-- One step of the `last_ok` scan over the trials store: on a record with the
same phone and package, keep the later of the accumulator and the record's
attributed instant. -/
def trialStep (phone pkg : String) (now : Int) (acc : Option Int)
    (r : TrialRec) : Option Int :=
  if r.phone = phone ∧ r.package = pkg then
    some (match acc with
          | none => trialWhen now r
          | some l => max l (trialWhen now r))
  else acc

/-- Embeds the `last_ok` loop of the trial continuation: the latest attributed
instant among records matching the phone and package, if any. -/
def lastMatchingTrial (trials : List TrialRec) (phone pkg : String)
    (now : Int) : Option Int :=
  trials.foldl (trialStep phone pkg now) none

/-- Outcome of one trial request: the cooldown refusal message, or a recorded
request. -/
inductive TrialOutcome
  | cooldown
  | recorded
deriving DecidableEq

/-- Embeds the trial branch of `_post_phone_continuations` (source lines
681-719): refuse when a matching record lies within the 30-day cooldown,
leaving the store untouched; otherwise append exactly one new record stamped
with the current instant. -/
def trialRequest (trials : List TrialRec) (phone pkg : String) (now : Int) :
    TrialOutcome × List TrialRec :=
  match lastMatchingTrial trials phone pkg now with
  | some l =>
    if now - l < trialCooldown then (.cooldown, trials)
    else (.recorded, trials ++ [⟨phone, pkg, some now⟩])
  | none => (.recorded, trials ++ [⟨phone, pkg, some now⟩])

theorem trialFold_none (phone pkg : String) (now : Int) :
    ∀ (trials : List TrialRec) (acc : Option Int),
      trials.foldl (trialStep phone pkg now) acc = none ↔
        acc = none ∧ ∀ r ∈ trials, ¬(r.phone = phone ∧ r.package = pkg) := by
  intro trials
  induction trials with
  | nil => intro acc; simp
  | cons r rs ih =>
    intro acc
    rw [List.foldl_cons, ih]
    by_cases h : r.phone = phone ∧ r.package = pkg
    · simp only [trialStep, if_pos h, List.forall_mem_cons]
      constructor
      · rintro ⟨hnone, -⟩; exact absurd hnone (by simp)
      · rintro ⟨-, hr, -⟩; exact absurd h hr
    · simp only [trialStep, if_neg h, List.forall_mem_cons]
      tauto

theorem trialFold_some (phone pkg : String) (now : Int) :
    ∀ (trials : List TrialRec) (acc : Option Int) (l : Int),
      trials.foldl (trialStep phone pkg now) acc = some l →
        (acc = some l ∨ ∃ r ∈ trials,
            (r.phone = phone ∧ r.package = pkg) ∧ trialWhen now r = l) ∧
        (∀ a : Int, acc = some a → a ≤ l) ∧
        (∀ r ∈ trials, (r.phone = phone ∧ r.package = pkg) →
          trialWhen now r ≤ l) := by
  intro trials
  induction trials with
  | nil =>
    intro acc l h
    simp only [List.foldl_nil] at h
    refine ⟨Or.inl h, fun a ha => ?_, by simp⟩
    rw [h] at ha
    exact le_of_eq (Option.some.injEq .. ▸ ha).symm
  | cons r rs ih =>
    intro acc l h
    rw [List.foldl_cons] at h
    obtain ⟨h1, h2, h3⟩ := ih (trialStep phone pkg now acc r) l h
    by_cases hm : r.phone = phone ∧ r.package = pkg
    · have hstep : ∀ a : Int, acc = some a →
          trialStep phone pkg now acc r = some (max a (trialWhen now r)) := by
        intro a ha; simp [trialStep, if_pos hm, ha]
      refine ⟨?_, ?_, ?_⟩
      · rcases h1 with hl | ⟨r', hr', hm', hw'⟩
        · cases hacc : acc with
          | none =>
            right
            refine ⟨r, List.mem_cons_self r rs, hm, ?_⟩
            rw [hacc] at hl
            simpa [trialStep, if_pos hm] using hl
          | some a0 =>
            rw [hstep a0 hacc] at hl
            have hmax : max a0 (trialWhen now r) = l := by
              simpa using hl
            rcases max_choice a0 (trialWhen now r) with hc | hc
            · exact Or.inl (congrArg some (hc.symm.trans hmax))
            · exact Or.inr ⟨r, List.mem_cons_self r rs, hm, hc.symm.trans hmax⟩
        · exact Or.inr ⟨r', List.mem_cons_of_mem r hr', hm', hw'⟩
      · intro a ha
        have := h2 (max a (trialWhen now r)) (hstep a ha)
        exact le_trans (le_max_left _ _) this
      · intro r' hr' hm'
        rcases List.mem_cons.mp hr' with h' | h'
        · subst h'
          cases hacc : acc with
          | none =>
            exact h2 (trialWhen now r') (by simp [trialStep, if_pos hm', hacc])
          | some a0 =>
            exact le_trans (le_max_right a0 _) (h2 _ (hstep a0 hacc))
        · exact h3 r' h' hm'
    · have hstep : trialStep phone pkg now acc r = acc := by
        simp [trialStep, if_neg hm]
      rw [hstep] at h1 h2
      refine ⟨?_, h2, ?_⟩
      · rcases h1 with hl | ⟨r', hr', hm', hw'⟩
        · exact Or.inl hl
        · exact Or.inr ⟨r', List.mem_cons_of_mem r hr', hm', hw'⟩
      · intro r' hr' hm'
        rcases List.mem_cons.mp hr' with h' | h'
        · exact absurd hm' (h' ▸ hm)
        · exact h3 r' h' hm'

theorem lastMatchingTrial_within_iff (trials : List TrialRec)
    (phone pkg : String) (now : Int) :
    (∃ l : Int, lastMatchingTrial trials phone pkg now = some l ∧
        now - l < trialCooldown) ↔
      ∃ r ∈ trials, (r.phone = phone ∧ r.package = pkg) ∧
        now - trialWhen now r < trialCooldown := by
  constructor
  · rintro ⟨l, hl, hlt⟩
    obtain ⟨h1, -, -⟩ := trialFold_some phone pkg now trials none l hl
    rcases h1 with h | ⟨r, hr, hm, hw⟩
    · cases h
    · exact ⟨r, hr, hm, by rw [hw]; exact hlt⟩
  · rintro ⟨r, hr, hm, hlt⟩
    rcases he : lastMatchingTrial trials phone pkg now with _ | l
    · exact absurd hm
        (((trialFold_none phone pkg now trials none).mp he).2 r hr)
    · obtain ⟨-, -, h3⟩ := trialFold_some phone pkg now trials none l he
      have hw := h3 r hr hm
      exact ⟨l, rfl, by omega⟩

/-- The store used to refute claim C8 as frozen: one matching record whose
`created_at` does not parse. -/
def cexTrials : List TrialRec := [⟨"+971500000001", "AECyberTV Kids", none⟩]

/-- Claim C8 as frozen is false on the code: with one matching record whose
`created_at` fails to parse, no record has a parsed `created_at` within 30
days of now, yet the request is refused with the cooldown message and nothing
is appended — the code substitutes the current instant for an unparseable
`created_at`, so such a record also triggers the cooldown. -/
theorem trialRequest_claim_counterexample :
    (¬ ∃ r ∈ cexTrials, r.phone = "+971500000001" ∧
        r.package = "AECyberTV Kids" ∧
        ∃ t : Int, r.created_at = some t ∧ 0 - t < trialCooldown) ∧
    trialRequest cexTrials "+971500000001" "AECyberTV Kids" 0 =
      (.cooldown, cexTrials) := by
  constructor
  · rintro ⟨r, hr, -, -, t, ht, -⟩
    have : r = ⟨"+971500000001", "AECyberTV Kids", none⟩ := by
      simpa [cexTrials] using hr
    rw [this] at ht
    simp at ht
  · rfl

/-- Claim C8, amended: a trial request is refused (with the cooldown message,
leaving the trials store unchanged) exactly when the store holds a record with
the same phone and package whose attributed instant — its `created_at` when it
parses, the current instant when it fails to parse — is less than 30 days
before now; otherwise exactly one new record is appended. -/
theorem trialRequest_amended (trials : List TrialRec) (phone pkg : String)
    (now : Int) :
    ((∃ r ∈ trials, (r.phone = phone ∧ r.package = pkg) ∧
        now - trialWhen now r < trialCooldown) →
      trialRequest trials phone pkg now = (.cooldown, trials)) ∧
    ((¬ ∃ r ∈ trials, (r.phone = phone ∧ r.package = pkg) ∧
        now - trialWhen now r < trialCooldown) →
      trialRequest trials phone pkg now =
        (.recorded, trials ++ [⟨phone, pkg, some now⟩])) := by
  constructor
  · intro hex
    obtain ⟨l, hl, hlt⟩ :=
      (lastMatchingTrial_within_iff trials phone pkg now).mpr hex
    simp [trialRequest, hl, hlt]
  · intro hnex
    rcases he : lastMatchingTrial trials phone pkg now with _ | l
    · simp [trialRequest, he]
    · have hnlt : ¬ now - l < trialCooldown := fun hlt =>
        hnex ((lastMatchingTrial_within_iff trials phone pkg now).mp
          ⟨l, he, hlt⟩)
      simp [trialRequest, he, hnlt]

/-- Concrete instance of the amended claim C8: a matching record created at
the current instant triggers the cooldown refusal. -/
theorem trialRequest_amended_witness :
    trialRequest [⟨"+97150", "AECyberTV Kids", some 0⟩] "+97150"
        "AECyberTV Kids" 0 =
      (.cooldown, [⟨"+97150", "AECyberTV Kids", some 0⟩]) :=
  (trialRequest_amended [⟨"+97150", "AECyberTV Kids", some 0⟩] "+97150"
      "AECyberTV Kids" 0).1
    ⟨⟨"+97150", "AECyberTV Kids", some 0⟩, by simp, ⟨rfl, rfl⟩, by decide⟩

/-! ### Billing core, modelled from the specification

The proration engine, charge ledger, account registry, settlement manager and
report builder described by the specification are not present in the source
tree (which holds only the Telegram shell), so they are modelled here from the
specification's words.  Dates are day numbers counted from an epoch Monday, so
`d % 7 < 5` is the default working pattern (the first five days of the week);
amounts are exact decimals represented in `ℚ`; instants are integers. -/

/-- Modelled from the spec: the configured working weekday pattern of the
proration engine (§4.1), absent from src/ — the first five days of a
seven-day week, with day 0 an epoch Monday. -/
def isWorkingDay (d : Nat) : Bool := decide (d % 7 < 5)

/-- Modelled from the spec: the engine constant `workingDaysPerWeek` (§4.1),
absent from src/, at its default of 5. -/
def workingDaysPerWeek : ℚ := 5

/-- Modelled from the spec: `workingDays(start, end, calendar)` (§4.1), absent
from src/ — iterates over the dates of `[start, end]` inclusive and counts
those on the working pattern and not in the exclusion calendar. -/
def workingDays (start endD : Nat) (cal : List Nat) : Nat :=
  (List.range' start (endD + 1 - start)).countP fun d =>
    isWorkingDay d && decide (d ∉ cal)

/-- Modelled from the spec: `baseOwed(weeklyAmount, start, end, calendar)`
(§4.1), absent from src/ — the per-day rate is computed once by exact decimal
division and multiplied by the working-day count. -/
def baseOwed (weekly : ℚ) (start endD : Nat) (cal : List Nat) : ℚ :=
  (weekly / workingDaysPerWeek) * workingDays start endD cal

theorem workingDays_eq_card (start endD : Nat) (cal : List Nat) :
    workingDays start endD cal =
      ((Finset.Icc start endD).filter fun d => d % 7 < 5 ∧ d ∉ cal).card := by
  rw [workingDays, List.countP_eq_length_filter, Nat.Icc_eq_range',
    Finset.card_def, Finset.filter_val]
  show _ = Multiset.card
    (Multiset.filter (fun d => d % 7 < 5 ∧ d ∉ cal)
      ↑(List.range' start (endD + 1 - start)))
  rw [Multiset.filter_coe, Multiset.coe_card]
  congr 1
  apply List.filter_congr
  intro d _
  simp only [isWorkingDay, Bool.decide_and]

/-- Claim C1: `baseOwed` equals the per-day rate (weekly amount divided by the
working-days-per-week constant, exact decimal division) times the number of
dates in `[start, end]` inclusive on the working pattern and outside the
exclusion calendar; an inverted range yields zero, not an error; and the
spec's scenario — weekly base 725, Mon-Fri window with Wednesday excluded —
owes 580. -/
theorem baseOwed_spec :
    (∀ (weekly : ℚ) (start endD : Nat) (cal : List Nat),
      baseOwed weekly start endD cal = (weekly / workingDaysPerWeek) *
        ((Finset.Icc start endD).filter fun d => d % 7 < 5 ∧ d ∉ cal).card) ∧
    (∀ (weekly : ℚ) (start endD : Nat) (cal : List Nat),
      endD < start → baseOwed weekly start endD cal = 0) ∧
    baseOwed 725 0 4 [2] = 580 := by
  refine ⟨?_, ?_, ?_⟩
  · intro weekly start endD cal
    rw [baseOwed, workingDays_eq_card]
  · intro weekly start endD cal h
    have hz : endD + 1 - start = 0 := by omega
    simp [baseOwed, workingDays, hz]
  · have h4 : workingDays 0 4 [2] = 4 := by decide
    rw [baseOwed, h4, workingDaysPerWeek]
    norm_num

/-- Concrete instance of claim C1's inverted-range clause: a window ending
before it starts owes nothing. -/
theorem baseOwed_spec_witness :
    (3 : Nat) < 5 ∧ baseOwed 725 5 3 [] = 0 :=
  ⟨by decide, baseOwed_spec.2.1 725 5 3 [] (by decide)⟩

/-- Modelled from the spec: the REAL/DRAFT charge classification (§3), absent
from src/. -/
inductive Classification
  | real
  | draft
deriving DecidableEq

/-- Modelled from the spec: the Charge record of the charge ledger (§3),
absent from src/ — id, owning account, timestamp, positive decimal amount,
label, classification. -/
structure Charge where
  cid : Nat
  accountId : Nat
  ts : Int
  amount : ℚ
  label : String
  classification : Classification
deriving DecidableEq

/-- Modelled from the spec: the extra-charges total of a report (§4.5), absent
from src/ — REAL charges are summed, DRAFT charges are skipped. -/
def extraTotal (cs : List Charge) : ℚ :=
  cs.foldl (fun acc c =>
    if c.classification = .real then acc + c.amount else acc) 0

theorem extraTotal_foldl (cs : List Charge) :
    ∀ acc : ℚ, cs.foldl (fun acc c =>
        if c.classification = .real then acc + c.amount else acc) acc =
      acc + ((cs.filter fun c => c.classification = .real).map
        Charge.amount).sum := by
  induction cs with
  | nil => intro acc; simp
  | cons c cs ih =>
    intro acc
    rw [List.foldl_cons]
    by_cases h : c.classification = .real
    · rw [if_pos h, ih, List.filter_cons_of_pos, List.map_cons, List.sum_cons]
      · ring
      · simpa using h
    · rw [if_neg h, ih, List.filter_cons_of_neg]
      simpa using h

/-- The spec's scenario store for claim C2: two REAL charges of 40.00 and
35.00 and one DRAFT charge of 999.00 inside the window. -/
def scenarioCharges : List Charge :=
  [⟨1, 1, 0, 40, "carpet cleaning", .real⟩,
   ⟨2, 1, 0, 35, "detour", .real⟩,
   ⟨3, 1, 0, 999, "rehearsal", .draft⟩]

/-- Claim C2: DRAFT charges contribute nothing to any computed total — the
extra-charges total of any charge list equals the sum over its REAL charges
only, appending a DRAFT charge never changes it, and the spec's scenario (REAL
40.00 and 35.00 plus DRAFT 999.00) totals exactly 75.00. -/
theorem extraTotal_spec :
    (∀ cs : List Charge, extraTotal cs =
      ((cs.filter fun c => c.classification = .real).map Charge.amount).sum) ∧
    (∀ (cs : List Charge) (c : Charge), c.classification = .draft →
      extraTotal (cs ++ [c]) = extraTotal cs) ∧
    extraTotal scenarioCharges = 75 := by
  have hmain : ∀ cs : List Charge, extraTotal cs =
      ((cs.filter fun c => c.classification = .real).map Charge.amount).sum := by
    intro cs
    rw [extraTotal, extraTotal_foldl]
    ring
  have hscen : extraTotal scenarioCharges = 75 := by
    rw [hmain]
    show ((40 : ℚ) + (35 + 0)) = 75
    norm_num
  refine ⟨hmain, ?_, hscen⟩
  intro cs c hc
  rw [hmain, hmain, List.filter_append]
  have : [c].filter (fun c => decide (c.classification = .real)) = [] := by
    simp [hc]
  rw [this, List.append_nil]

/-- Concrete instance of claim C2's append clause: appending a DRAFT charge of
999.00 leaves the total at 75.00. -/
theorem extraTotal_spec_witness :
    (⟨4, 1, 0, 999, "rehearsal", .draft⟩ : Charge).classification = .draft ∧
      extraTotal (scenarioCharges ++ [⟨4, 1, 0, 999, "rehearsal", .draft⟩]) =
        extraTotal scenarioCharges :=
  ⟨rfl, extraTotal_spec.2.1 scenarioCharges
    ⟨4, 1, 0, 999, "rehearsal", .draft⟩ rfl⟩

/-- Modelled from the spec: the Account record of the account registry (§3),
absent from src/ — durable external id, compact sequential alias, display
name, active flag, optional base override, optional service start, default
flag. -/
structure Account where
  externalId : Nat
  aliasId : Nat
  name : String
  active : Bool
  baseOverride : Option ℚ
  serviceStart : Option Int
  isDefault : Bool
deriving DecidableEq

/-- Modelled from the spec: alias assignment on registration (§4.3), absent
from src/ — the smallest unused positive integer (some candidate among
`1 .. length+1` is always unused). -/
def freshAlias (accounts : List Account) : Nat :=
  ((List.range' 1 (accounts.length + 1)).filter fun n =>
    ¬ accounts.any fun a => a.aliasId == n).headD 1

/-- Modelled from the spec: `register(externalId, name)` (§4.3), absent from
src/ — assigns the next unused alias starting at 1; the first account ever
registered becomes default automatically. -/
def register (accounts : List Account) (externalId : Nat) (name : String) :
    Account × List Account :=
  let acc : Account :=
    ⟨externalId, freshAlias accounts, name, true, none, none, accounts.isEmpty⟩
  (acc, accounts ++ [acc])

/-- Modelled from the spec: `resolve(code)` (§4.3), absent from src/ — try an
external-id match first, then an alias match; this precedence is load-bearing
when the two ranges collide. -/
def resolve (accounts : List Account) (code : Nat) : Option Account :=
  match accounts.find? fun a => a.externalId == code with
  | some a => some a
  | none => accounts.find? fun a => a.aliasId == code

/-- Claim C4: `resolve` tries the external-id match before the alias match, so
whenever any account carries the code as external id the resolved account is
an external-id owner (an alias owner never shadows it); and the spec's
scenario — the first account registered with external id 981113059 receives
alias 1 and is returned both by `resolve 1` and by `resolve 981113059`. -/
theorem resolve_spec :
    (∀ (accounts : List Account) (code : Nat),
      (∃ a ∈ accounts, a.externalId = code) →
      ∃ a : Account, resolve accounts code = some a ∧ a.externalId = code) ∧
    (resolve (register [] 981113059 "A").2 1 =
        some (register [] 981113059 "A").1 ∧
      (register [] 981113059 "A").1.aliasId = 1 ∧
      resolve (register [] 981113059 "A").2 981113059 =
        some (register [] 981113059 "A").1) := by
  constructor
  · intro accounts code hex
    have hsome : (accounts.find? fun a => a.externalId == code).isSome := by
      rw [List.find?_isSome]
      obtain ⟨a, ha, he⟩ := hex
      exact ⟨a, ha, by simpa using he⟩
    rcases hf : accounts.find? fun a => a.externalId == code with _ | a
    · rw [hf] at hsome; cases hsome
    · exact ⟨a, by rw [resolve, hf], by simpa using List.find?_some hf⟩
  · refine ⟨?_, ?_, ?_⟩ <;> decide

/-- Concrete instance of claim C4's precedence clause: with one account whose
external id 7 is also another account's alias, `resolve` returns the
external-id owner. -/
theorem resolve_spec_witness :
    (∃ a ∈ [(⟨3, 7, "B", true, none, none, false⟩ : Account),
        ⟨7, 1, "A", true, none, none, true⟩], a.externalId = 7) ∧
      ∃ a : Account,
        resolve [⟨3, 7, "B", true, none, none, false⟩,
          ⟨7, 1, "A", true, none, none, true⟩] 7 = some a ∧
          a.externalId = 7 :=
  ⟨⟨⟨7, 1, "A", true, none, none, true⟩, by simp, rfl⟩,
    resolve_spec.1 [⟨3, 7, "B", true, none, none, false⟩,
      ⟨7, 1, "A", true, none, none, true⟩] 7
      ⟨⟨7, 1, "A", true, none, none, true⟩, by simp, rfl⟩⟩

/-- Modelled from the spec: the error taxonomy of the charge ledger (§4.2 and
§7), absent from src/. -/
inductive LedgerError
  | invalidAmount
  | unknownAccount
  | noDefaultAccount
deriving DecidableEq

/-- Modelled from the spec: the persisted billing state owned by the ledger
(§6), absent from src/ — the registered accounts, the charge list, and the
`nextChargeId` counter. -/
structure LedgerState where
  accounts : List Account
  charges : List Charge
  nextChargeId : Nat
deriving DecidableEq

/-- Modelled from the spec: `append(accountId, amount, label, classification,
timestamp)` (§4.2), absent from src/ — validation rejects a non-positive
amount before any mutation; then the account is resolved (the default account
substituting for an omitted id); only then is the charge appended and the id
counter bumped.  The returned state is the stored state after the call: on
any error it is the input state, untouched. -/
def appendCharge (st : LedgerState) (accountId : Option Nat) (amount : ℚ)
    (label : String) (cls : Classification) (ts : Int) :
    Except LedgerError Nat × LedgerState :=
  if amount ≤ 0 then (.error .invalidAmount, st)
  else
    match accountId with
    | some code =>
      match resolve st.accounts code with
      | some a =>
        (.ok st.nextChargeId,
          { st with
            charges := st.charges ++
              [⟨st.nextChargeId, a.externalId, ts, amount, label, cls⟩],
            nextChargeId := st.nextChargeId + 1 })
      | none => (.error .unknownAccount, st)
    | none =>
      match st.accounts.find? fun a => a.isDefault with
      | some a =>
        (.ok st.nextChargeId,
          { st with
            charges := st.charges ++
              [⟨st.nextChargeId, a.externalId, ts, amount, label, cls⟩],
            nextChargeId := st.nextChargeId + 1 })
      | none => (.error .noDefaultAccount, st)

/-- Claim C3: for every account id, label, classification and timestamp, and
every amount ≤ 0, the ledger append fails with `InvalidAmount` and leaves the
stored state completely unchanged — the validation error precedes any
mutation. -/
theorem appendCharge_invalidAmount (st : LedgerState) (accountId : Option Nat)
    (amount : ℚ) (label : String) (cls : Classification) (ts : Int) :
    amount ≤ 0 →
      appendCharge st accountId amount label cls ts =
        (.error .invalidAmount, st) := by
  intro h
  rw [appendCharge.eq_def, if_pos h]

/-- Concrete instance of claim C3: an amount of 0 is rejected with
`InvalidAmount` on an empty ledger, which stays empty. -/
theorem appendCharge_invalidAmount_witness :
    appendCharge ⟨[], [], 1⟩ (some 7) 0 "wash" .real 0 =
      (.error .invalidAmount, ⟨[], [], 1⟩) :=
  appendCharge_invalidAmount ⟨[], [], 1⟩ (some 7) 0 "wash" .real 0 le_rfl

/-- Modelled from the spec: `recordCheckpoint` for one account (§4.4), absent
from src/ — the account's checkpoint list is append-only. -/
def recordCheckpoint (cps : List Int) (t : Int) : List Int := cps ++ [t]

/-- Modelled from the spec: `lastCheckpoint` (§4.4), absent from src/ — the
maximum timestamp across the account's own checkpoints, scanned left to
right. -/
def lastCheckpoint (cps : List Int) : Option Int :=
  cps.foldl (fun acc t =>
    some (match acc with
          | none => t
          | some m => max m t)) none

/-- Modelled from the spec: `unsettledFloor(accountId, globalFloor)` (§4.4),
absent from src/ — the maximum of the global floor, the account's service
start (defaulting to the global floor), and the last checkpoint when one
exists. -/
def unsettledFloor (globalFloor : Int) (serviceStart : Option Int)
    (cps : List Int) : Int :=
  let base := max globalFloor (serviceStart.getD globalFloor)
  match lastCheckpoint cps with
  | some t => max base t
  | none => base

/-- Modelled from the spec: the settlement invariant (§3), absent from src/ —
a charge with timestamp at or before the applicable floor is excluded from
any owed computation. -/
def settledCharges (floorT : Int) (cs : List Charge) : List Charge :=
  cs.filter fun c => decide (c.ts ≤ floorT)

theorem lastCheckpoint_record (cps : List Int) (t : Int) :
    lastCheckpoint (recordCheckpoint cps t) =
      some (match lastCheckpoint cps with
            | none => t
            | some m => max m t) := by
  rw [recordCheckpoint, lastCheckpoint, List.foldl_append, List.foldl_cons,
    List.foldl_nil, lastCheckpoint]

/-- Claim C5: recording the same checkpoint timestamp twice is idempotent —
the unsettled floor after two identical checkpoints equals the floor after
one, for every global floor and service start, and consequently the recorded
duplicate excludes no charge beyond the single exclusion. -/
theorem recordCheckpoint_idempotent (globalFloor : Int)
    (serviceStart : Option Int) (cps : List Int) (t : Int) :
    unsettledFloor globalFloor serviceStart
        (recordCheckpoint (recordCheckpoint cps t) t) =
      unsettledFloor globalFloor serviceStart (recordCheckpoint cps t) ∧
    ∀ cs : List Charge,
      settledCharges (unsettledFloor globalFloor serviceStart
          (recordCheckpoint (recordCheckpoint cps t) t)) cs =
        settledCharges (unsettledFloor globalFloor serviceStart
          (recordCheckpoint cps t)) cs := by
  have hfloor : unsettledFloor globalFloor serviceStart
      (recordCheckpoint (recordCheckpoint cps t) t) =
        unsettledFloor globalFloor serviceStart (recordCheckpoint cps t) := by
    rw [unsettledFloor, unsettledFloor, lastCheckpoint_record,
      lastCheckpoint_record]
    rcases lastCheckpoint cps with _ | m
    · simp [max_self]
    · simp [max_assoc, max_self]
  exact ⟨hfloor, fun cs => by rw [hfloor]⟩

/-- Modelled from the spec: the report result (§4.5), absent from src/ — the
distinguished "not yet active" answer is a separate constructor from an
ordinary report carrying base, extra and grand totals, so a zero-filled
report can never be confused with it. -/
inductive ReportResult
  | notYetActive
  | report (base : ℚ) (extra : ℚ) (total : ℚ)
deriving DecidableEq

/-- Modelled from the spec: `buildReport(accountId?, windowStart, windowEnd)`
(§4.5), absent from src/ — clamp the window start up to the unsettled floor
and the window end down to today; on an inverted clamped window answer
"not yet active"; otherwise prorate the base over the clamped window and add
the REAL charges whose timestamp lies inside it. -/
def buildReport (floorDate today windowStart windowEnd : Nat) (weekly : ℚ)
    (cal : List Nat) (charges : List Charge) : ReportResult :=
  let s := max windowStart floorDate
  let e := min windowEnd today
  if e < s then .notYetActive
  else
    let b := baseOwed weekly s e cal
    let x := extraTotal (charges.filter fun c =>
      decide ((s : Int) ≤ c.ts) && decide (c.ts ≤ (e : Int)))
    .report b x (b + x)

/-- Claim C6: whenever clamping the window start up to the unsettled floor
and the window end down to today inverts the window, `buildReport` returns
the distinguished "not yet active" result, which no zero-filled report
equals — so callers can tell "nothing owed" apart from "period hasn't
started"; in the spec's scenario (floor at day 23, window days 0-19), the
clamped start 23 exceeds the clamped end 19 and the result is "not yet
active". -/
theorem buildReport_notYetActive :
    (∀ (floorDate today windowStart windowEnd : Nat) (weekly : ℚ)
        (cal : List Nat) (charges : List Charge),
      min windowEnd today < max windowStart floorDate →
      buildReport floorDate today windowStart windowEnd weekly cal charges =
        .notYetActive) ∧
    (∀ base extra total : ℚ,
      (ReportResult.notYetActive : ReportResult) ≠ .report base extra total) ∧
    buildReport 23 29 0 19 725 [] [] = .notYetActive := by
  refine ⟨?_, ?_, ?_⟩
  · intro floorDate today windowStart windowEnd weekly cal charges h
    rw [buildReport.eq_def]
    simp only [if_pos h]
  · intro base extra total
    exact fun h => ReportResult.noConfusion h
  · rw [buildReport.eq_def]
    norm_num

/-- Concrete instance of claim C6's clamping clause: the spec's scenario,
driven through the hypothesis — the clamped start 23 exceeds the clamped end
19, hence "not yet active". -/
theorem buildReport_notYetActive_witness :
    min 19 29 < max 0 23 ∧
      buildReport 23 29 0 19 725 [] [] = .notYetActive :=
  ⟨by decide, buildReport_notYetActive.1 23 29 0 19 725 [] [] (by decide)⟩

end DriverSchoolBot
